import Mathlib

/-!
Verification development for the agentic_terraformer message-passing core.

Shallow embedding of:
- `core/models.py` (`AgentMessage`),
- `core/message_bus.py` (`MessageBus.send`, `MessageBus.run`),
- `agents/evaluation_agent.py` (`EvaluationAgent._handle_scenario_count`,
  `_handle_sim_result`, `_evaluate_session`, `_score_scenario`),
- `agents/scenario_agent.py` (`ScenarioAgent.handle_message`).

Python floats are embedded as rationals (`Rat`); the claims under study
concern selection, aggregation and dispatch structure, and all concrete
numbers involved are exactly representable.  Python dict payloads are
embedded as a closed `Payload` datatype covering the shapes the agents
construct and read.  The dispatch loop `MessageBus.run` is embedded as a
fuelled step function: the fuel is an artifact of totality, and a run that
exhausts any amount of fuel without reaching an exit corresponds to the
Python loop still running.
-/

namespace AgenticTerraformer

/-! ## Data model: payload shapes (dict contents the agents read/write) -/

/-- `policy["targets"]` as read by `EvaluationAgent._score_scenario`:
`co2_reduction_percent` is accessed with `[]` (required), the other two
with `.get` (may be absent, hence `Option`). -/
structure Targets where
  co2_reduction_percent : Rat
  budget_limit_usd : Option Rat
  job_loss_max_percent : Option Rat
deriving DecidableEq, Repr

/-- The policy dict fields the core agents read. -/
structure Policy where
  region_id : String
  targets : Targets
deriving DecidableEq, Repr

/-- Simulation outcome dict as read by the evaluation agent:
`co2_reduction_percent` and `total_cost_usd` are required,
`estimated_jobs_change_percent` is read with `.get(..., 0.0)`. -/
structure Simulation where
  co2_reduction_percent : Rat
  total_cost_usd : Rat
  estimated_jobs_change_percent : Option Rat
deriving DecidableEq, Repr

/-- One action of a scenario: `{"id": ..., "scale": ...}`. -/
structure ScenAction where
  id : String
  scale : String
deriving DecidableEq, Repr

/-- A scenario dict produced by `ScenarioAgent._generate_scenarios`. -/
structure Scenario where
  scenario_id : String
  actions : List ScenAction
deriving DecidableEq, Repr

/-- A `SIM_RESULT` payload entry, as appended to the per-session `results`
list by `EvaluationAgent._handle_sim_result` and consumed by
`_evaluate_session`: the dict keys `policy`, `region`, `scenario`,
`simulation`.  The `region` dict is never inspected by the evaluation
agent, only carried through, so it is embedded as an opaque label. -/
structure ResultEntry where
  policy : Policy
  region : String
  scenario : Scenario
  simulation : Simulation
deriving DecidableEq, Repr

/-! ## EvaluationAgent summary shape (`_evaluate_session` output dict) -/

/-- The `best_scenario` dict built at fire time. -/
structure BestScenario where
  score : Rat
  policy : Policy
  region : String
  scenario : Scenario
  simulation : Simulation
deriving DecidableEq, Repr

/-- One entry of `ranked_scenarios`. -/
structure RankedScenario where
  score : Rat
  scenario : Scenario
  simulation : Simulation
deriving DecidableEq, Repr

/-- The `metrics` dict: note the statistics are over the results'
`co2_reduction_percent` and `total_cost_usd` fields. -/
structure Metrics where
  num_scenarios : Nat
  avg_co2_reduction_percent : Rat
  avg_total_cost_usd : Rat
  max_co2_reduction_percent : Rat
  min_total_cost_usd : Rat
deriving DecidableEq, Repr

/-- The full `EVAL_SUMMARY` payload. -/
structure Summary where
  best_scenario : BestScenario
  ranked_scenarios : List RankedScenario
  metrics : Metrics
deriving DecidableEq, Repr

/-- Closed payload datatype covering the dict shapes the embedded agents
construct and read. -/
inductive Payload where
  | count (n : Nat)
  | regionContext (policy : Policy) (region : String)
  | scenarioOut (policy : Policy) (region : String) (scenario : Scenario)
      (intervention_ids : List String)
  | simResult (entry : ResultEntry)
  | evalSummary (s : Summary)
  | tagged (tag : String)
deriving DecidableEq, Repr

/-- `core/models.py` `AgentMessage`.  The `timestamp` is assigned a
wall-clock string at construction in Python and never used in any
routing or barrier decision; it is carried as an opaque optional field. -/
structure AgentMessage where
  sender : String
  receiver : String
  type : String
  payload : Payload
  session_id : String
  timestamp : Option String := none
deriving DecidableEq, Repr

/-! ## MessageBus (`core/message_bus.py`)

A handler (`handle_message(msg, bus)`) may mutate its own object state,
call `bus.send` some number of times (appending to the queue tail, in
order), and possibly raise.  Its net effect is embedded as `HandlerOut`:
the new agent-world state, the ordered list of messages sent, and an
optional exception (messages listed are those sent before any raise). -/

structure HandlerOut (σ : Type) where
  world : σ
  sent : List AgentMessage
  err : Option String

/-- An agent handler over agent-world state `σ`. -/
def Agent (σ : Type) : Type := σ → AgentMessage → HandlerOut σ

/-- Bus state: the registry (`self.agents`), the pending queue
(`self.queue`), and the combined mutable state of the registered agent
objects. -/
structure BusState (σ : Type) where
  agents : List (String × Agent σ)
  queue : List AgentMessage
  world : σ

/-- `self.agents.get(receiver_name)`: dict lookup on the registry. -/
def lookupAgent {σ : Type} : List (String × Agent σ) → String → Option (Agent σ)
  | [], _ => none
  | (k, v) :: rest, name => if k = name then some v else lookupAgent rest name

/-- `MessageBus.send`: append the message to the tail of the queue. -/
def send {σ : Type} (st : BusState σ) (msg : AgentMessage) : BusState σ :=
  { st with queue := st.queue ++ [msg] }

/-- Diagnostic/trace events produced by one pass of the dispatch loop
body: a foreign-session recycle, the `logger.error` for a missing
receiver, a handler invocation, and the `logger.exception` (with its
message type / receiver / session context) for a handler that raised. -/
inductive Event where
  | recycled (m : AgentMessage)
  | unknownReceiver (m : AgentMessage)
  | dispatched (m : AgentMessage)
  | handlerFailure (mtype mreceiver msession e : String)
deriving DecidableEq, Repr

/-- `session_id is not None and msg.session_id != session_id`. -/
def foreignTo (f : Option String) (m : AgentMessage) : Bool :=
  match f with
  | none => false
  | some s => !(m.session_id == s)

/-- `max_steps is not None and steps >= max_steps`. -/
def limitReached (ms : Option Nat) (steps : Nat) : Bool :=
  match ms with
  | none => false
  | some n => n ≤ steps

/-- One pass of the `MessageBus.run` loop body after the head message `m`
has been popped (`rest` is the remaining queue): session filtering with
re-append to the tail, registry resolution with drop-and-continue on a
missing receiver, and handler invocation with exception containment. -/
def stepBus {σ : Type} (f : Option String) (st : BusState σ) (m : AgentMessage)
    (rest : List AgentMessage) : BusState σ × List Event :=
  if foreignTo f m then ({ st with queue := rest ++ [m] }, [.recycled m])
  else
    match lookupAgent st.agents m.receiver with
    | none => ({ st with queue := rest }, [.unknownReceiver m])
    | some a =>
      let out := a st.world m
      ({ agents := st.agents, queue := rest ++ out.sent, world := out.world },
        .dispatched m ::
          (match out.err with
           | some e => [.handlerFailure m.type m.receiver m.session_id e]
           | none => []))

/-- Why `MessageBus.run` returned. -/
inductive RunExit where
  | queueEmpty
  | stepLimit
  | fuelOut
deriving DecidableEq, Repr

/-- Result of a (fuelled) run: final bus state, the `steps` counter, the
trace of loop-body events, and the exit reason. -/
structure RunResult (σ : Type) where
  state : BusState σ
  steps : Nat
  trace : List Event
  exit : RunExit

/-- `MessageBus.run(session_id, max_steps)` as a fuelled loop.  Each unit
of fuel allows one iteration of the `while self.queue:` loop; `fuelOut`
means the fuel ran out with the loop still going (the Python loop has no
such exit: an execution that is `fuelOut` at every fuel is a
non-terminating run). -/
def runFuel {σ : Type} (f : Option String) (ms : Option Nat) :
    Nat → BusState σ → Nat → List Event → RunResult σ
  | 0, st, steps, tr => ⟨st, steps, tr, .fuelOut⟩
  | fuel + 1, st, steps, tr =>
    match st.queue with
    | [] => ⟨st, steps, tr, .queueEmpty⟩
    | m :: rest =>
      if limitReached ms steps then ⟨st, steps, tr, .stepLimit⟩
      else
        let s2 := stepBus f st m rest
        runFuel f ms fuel s2.1 (steps + 1) (tr ++ s2.2)

/-- The messages delivered (handler invoked) along a trace. -/
def delivs (tr : List Event) : List AgentMessage :=
  tr.filterMap (fun e => match e with | .dispatched m => some m | _ => none)

/-- Number of dispatch attempts recorded in a trace: every loop-body pass
records exactly one of `recycled` / `unknownReceiver` / `dispatched`
(a `handlerFailure` accompanies a `dispatched`). -/
def countAttempts (tr : List Event) : Nat :=
  (tr.filter (fun e =>
    match e with | .handlerFailure _ _ _ _ => false | _ => true)).length

/-- The sub-list of messages of a queue belonging to session `s`. -/
def sameOf (s : String) (q : List AgentMessage) : List AgentMessage :=
  q.filter (fun m => m.session_id == s)

/-! ## EvaluationAgent (`agents/evaluation_agent.py`) -/

/-- `max` over a nonempty Python list (the empty case is unreachable at
every use site and mapped to 0). -/
def listMax : List Rat → Rat
  | [] => 0
  | x :: xs => xs.foldl max x

/-- `min` over a nonempty Python list (empty case unreachable, 0). -/
def listMin : List Rat → Rat
  | [] => 0
  | x :: xs => xs.foldl min x

/-- `EvaluationAgent._score_scenario`. -/
def score_scenario (policy : Policy) (sim : Simulation) : Rat :=
  let target_reduction := policy.targets.co2_reduction_percent
  let reduction := sim.co2_reduction_percent
  let reduction_score := reduction - max 0 (target_reduction - reduction)
  let cost := sim.total_cost_usd
  let budget_overshoot : Rat :=
    match policy.targets.budget_limit_usd with
    | some budget_limit =>
      if budget_limit < cost then (cost - budget_limit) / max budget_limit 1 else 0
    | none => 0
  let job_limit := policy.targets.job_loss_max_percent.getD 5
  let jobs_change := sim.estimated_jobs_change_percent.getD 0
  let jobs_penalty : Rat :=
    if jobs_change < -job_limit then abs jobs_change - job_limit else 0
  1 * reduction_score - 50 * budget_overshoot - 10 * jobs_penalty

/-- The ordering used by `scored.sort(key=lambda x: x[0], reverse=True)`:
descending by score.  Python's sort is stable; `List.insertionSort` with
this (non-strict) relation is the matching stable descending sort
(an element inserted into the sorted remainder passes elements of
strictly smaller score and stops at the first element of score greater
than or equal to its own, so earlier-listed elements precede later ones
at equal scores). -/
def scoreGE (a b : Rat × ResultEntry) : Prop := b.1 ≤ a.1

instance : DecidableRel scoreGE := fun a b => inferInstanceAs (Decidable (b.1 ≤ a.1))

/-! ## Abbreviations for the scored list (used in statements) -/

/-- An entry's fitness score. -/
def scoreOf (e : ResultEntry) : Rat := score_scenario e.policy e.simulation

/-- The `scored` list built by `_evaluate_session` before sorting. -/
def scoredOf (rs : List ResultEntry) : List (Rat × ResultEntry) :=
  rs.map (fun e => (score_scenario e.policy e.simulation, e))

/-- An entry's co2-reduction field. -/
def co2Of (e : ResultEntry) : Rat := e.simulation.co2_reduction_percent

/-- An entry's total-cost field. -/
def costOf (e : ResultEntry) : Rat := e.simulation.total_cost_usd

/-- `EvaluationAgent._evaluate_session`: score each entry, stable-sort
descending by score, pick the head as best, and compute the metrics over
the results' co2-reduction and cost fields.  Python raises `IndexError`
on an empty result list (`scored[0]`); that case is `none` here (it is
unreachable from `_handle_sim_result`, which always appends before
firing). -/
def evaluate_session (results : List ResultEntry) : Option Summary :=
  let sorted := List.insertionSort scoreGE (scoredOf results)
  match sorted with
  | [] => none
  | (best_score, best_entry) :: _ =>
    let co2_reductions := sorted.map (fun p => p.2.simulation.co2_reduction_percent)
    let costs := sorted.map (fun p => p.2.simulation.total_cost_usd)
    some
      { best_scenario :=
          { score := best_score, policy := best_entry.policy,
            region := best_entry.region, scenario := best_entry.scenario,
            simulation := best_entry.simulation }
        ranked_scenarios :=
          sorted.map (fun p =>
            { score := p.1, scenario := p.2.scenario, simulation := p.2.simulation })
        metrics :=
          { num_scenarios := sorted.length
            avg_co2_reduction_percent :=
              co2_reductions.sum / (co2_reductions.length : Rat)
            avg_total_cost_usd := costs.sum / (costs.length : Rat)
            max_co2_reduction_percent := listMax co2_reductions
            min_total_cost_usd := listMin costs } }

/-- Per-session barrier record: `{"expected": ..., "results": [...]}`.
`expected` is a Python int (set from `int(msg.payload["count"])`),
absent (`None`) until a `SCENARIO_COUNT` arrives. -/
structure SessionRecord where
  expected : Option Int
  results : List ResultEntry
deriving DecidableEq, Repr

/-- Dict lookup on `self._sessions`. -/
def lookupSession : List (String × SessionRecord) → String → Option SessionRecord
  | [], _ => none
  | (k, v) :: rest, sid => if k = sid then some v else lookupSession rest sid

/-- Dict write `self._sessions[sid] = r` (update in place, else append). -/
def setSession : List (String × SessionRecord) → String → SessionRecord →
    List (String × SessionRecord)
  | [], sid, r => [(sid, r)]
  | (k, v) :: rest, sid, r =>
    if k = sid then (k, r) :: rest else (k, v) :: setSession rest sid r

/-- Dict delete `del self._sessions[sid]`. -/
def removeSession : List (String × SessionRecord) → String →
    List (String × SessionRecord)
  | [], _ => []
  | (k, v) :: rest, sid =>
    if k = sid then removeSession rest sid else (k, v) :: removeSession rest sid

/-- `EvaluationAgent.__init__`: the `_sessions` dict. -/
structure EvalState where
  sessions : List (String × SessionRecord)
deriving DecidableEq, Repr

/-- The two message kinds `EvaluationAgent.handle_message` acts on. -/
inductive EvalMsg where
  | scenarioCount (count : Int)
  | simResult (entry : ResultEntry)
deriving DecidableEq, Repr

/-- `EvaluationAgent.handle_message` restricted to the two recognized
types, returning the new state and the list of summaries sent to
`ReportAgent` (zero or one).  `_handle_scenario_count` records/overwrites
`expected` and never checks the threshold; `_handle_sim_result` creates
the record if absent, appends, and fires when `expected` is known and
`len(results) >= expected`, deleting the session record. -/
def handleEval (st : EvalState) (sid : String) (msg : EvalMsg) :
    EvalState × List Summary :=
  match msg with
  | .scenarioCount c =>
    match lookupSession st.sessions sid with
    | none => (⟨setSession st.sessions sid ⟨some c, []⟩⟩, [])
    | some r => (⟨setSession st.sessions sid ⟨some c, r.results⟩⟩, [])
  | .simResult entry =>
    let r0 := (lookupSession st.sessions sid).getD ⟨none, []⟩
    let results := r0.results ++ [entry]
    match r0.expected with
    | some k =>
      if k ≤ (results.length : Int) then
        (⟨removeSession st.sessions sid⟩, (evaluate_session results).toList)
      else (⟨setSession st.sessions sid ⟨some k, results⟩⟩, [])
    | none => (⟨setSession st.sessions sid ⟨none, results⟩⟩, [])

/-- Process a sequence of messages for one session through the evaluation
agent, collecting the summaries emitted per message. -/
def runEval (sid : String) : EvalState → List EvalMsg → EvalState × List (List Summary)
  | st, [] => (st, [])
  | st, m :: ms =>
    let stp := handleEval st sid m
    let rest := runEval sid stp.1 ms
    (rest.1, stp.2 :: rest.2)

/-! ## ScenarioAgent (`agents/scenario_agent.py`) -/

/-- The `SCENARIO_COUNT` message built by `ScenarioAgent.handle_message`. -/
def mkCountMsg (sid : String) (n : Nat) : AgentMessage :=
  { sender := "ScenarioAgent", receiver := "EvaluationAgent",
    type := "SCENARIO_COUNT", payload := .count n, session_id := sid }

/-- One `SCENARIO` message built by `ScenarioAgent.handle_message`. -/
def mkScenarioMsg (sid : String) (policy : Policy) (region : String)
    (sc : Scenario) : AgentMessage :=
  { sender := "ScenarioAgent", receiver := "SimulationAgent",
    type := "SCENARIO",
    payload := .scenarioOut policy region sc (sc.actions.map (fun a => a.id)),
    session_id := sid }

/-- `ScenarioAgent.handle_message`, parametrized by the scenario list the
randomized `_generate_scenarios` produced for this invocation.  Non
`REGION_CONTEXT` messages are ignored (log only).  If the generated list
is empty the handler logs an error and returns without sending anything
(the source comment: notifying `ReportAgent` is left undone); otherwise
it sends one `SCENARIO_COUNT{count=len(scenarios)}` to the evaluation
agent followed by one `SCENARIO` per scenario. -/
def scenarioHandle (scenarios : List Scenario) (msg : AgentMessage) :
    List AgentMessage :=
  if msg.type ≠ "REGION_CONTEXT" then []
  else
    match msg.payload with
    | .regionContext policy region =>
      if scenarios = [] then []
      else
        mkCountMsg msg.session_id scenarios.length ::
          scenarios.map (mkScenarioMsg msg.session_id policy region)
    | _ => []

/-! ## Spec-side comparison definitions -/

/-- Modelled from the spec's words for the refinement comparison of the
best-result selection: "the aggregate selects the maximum-scoring result
as best (ties broken by first-seen order)" — the first entry of the list
attaining the maximum score, paired with that score. -/
def specBest : List ResultEntry → Option (Rat × ResultEntry)
  | [] => none
  | e :: rest =>
    let s := score_scenario e.policy e.simulation
    match specBest rest with
    | none => some (s, e)
    | some p => if p.1 ≤ s then some (s, e) else some p

/-- The (score, entry) pair a summary designates as best. -/
def bestEntryOf (su : Summary) : Rat × ResultEntry :=
  (su.best_scenario.score,
    { policy := su.best_scenario.policy, region := su.best_scenario.region,
      scenario := su.best_scenario.scenario,
      simulation := su.best_scenario.simulation })

/-! ## Concrete fixtures used in scenario theorems and counterexamples -/

/-- A policy with target reduction 0, no budget limit and no job-loss
bound: for it, an entry's score reduces to its co2-reduction value. -/
def tPolicy : Policy :=
  { region_id := "R1",
    targets := { co2_reduction_percent := 0, budget_limit_usd := none,
                 job_loss_max_percent := none } }

/-- Result for scenario `S1`, scoring 10 (reduction 10, cost 100). -/
def entryS1 : ResultEntry :=
  { policy := tPolicy, region := "regionA",
    scenario := { scenario_id := "S1", actions := [] },
    simulation := { co2_reduction_percent := 10, total_cost_usd := 100,
                    estimated_jobs_change_percent := none } }

/-- Result for scenario `S2`, scoring 15/2 (reduction 7.5, cost 200). -/
def entryS2 : ResultEntry :=
  { policy := tPolicy, region := "regionB",
    scenario := { scenario_id := "S2", actions := [] },
    simulation := { co2_reduction_percent := 15/2, total_cost_usd := 200,
                    estimated_jobs_change_percent := none } }

/-- Tie fixture: same score (10) as `entryT2` but a different entry. -/
def entryT1 : ResultEntry :=
  { policy := tPolicy, region := "tieA",
    scenario := { scenario_id := "S1", actions := [] },
    simulation := { co2_reduction_percent := 10, total_cost_usd := 100,
                    estimated_jobs_change_percent := none } }

/-- Tie fixture: same score (10) as `entryT1` but a different entry. -/
def entryT2 : ResultEntry :=
  { policy := tPolicy, region := "tieB",
    scenario := { scenario_id := "S2", actions := [] },
    simulation := { co2_reduction_percent := 10, total_cost_usd := 200,
                    estimated_jobs_change_percent := none } }

/-! # Theorems

Helper lemmas first, then one theorem per claim (with witnesses /
counterexamples where required). -/

/-! ## List max/min helper lemmas -/

lemma foldl_max_mem (xs : List Rat) : ∀ x : Rat, xs.foldl max x ∈ x :: xs := by
  induction xs with
  | nil => intro x; simp
  | cons y ys ih =>
    intro x
    simp only [List.foldl_cons]
    have h := ih (max x y)
    rcases max_choice x y with hm | hm <;> rw [hm] at h ⊢ <;>
      simp only [List.mem_cons] at h ⊢ <;> tauto

lemma le_foldl_max (xs : List Rat) :
    ∀ x : Rat, x ≤ xs.foldl max x ∧ ∀ y ∈ xs, y ≤ xs.foldl max x := by
  induction xs with
  | nil => intro x; simp
  | cons z zs ih =>
    intro x
    simp only [List.foldl_cons]
    obtain ⟨h1, h2⟩ := ih (max x z)
    refine ⟨le_trans (le_max_left x z) h1, ?_⟩
    intro y hy
    rcases List.mem_cons.mp hy with rfl | hy
    · exact le_trans (le_max_right x y) h1
    · exact h2 y hy

lemma foldl_min_mem (xs : List Rat) : ∀ x : Rat, xs.foldl min x ∈ x :: xs := by
  induction xs with
  | nil => intro x; simp
  | cons y ys ih =>
    intro x
    simp only [List.foldl_cons]
    have h := ih (min x y)
    rcases min_choice x y with hm | hm <;> rw [hm] at h ⊢ <;>
      simp only [List.mem_cons] at h ⊢ <;> tauto

lemma foldl_min_le (xs : List Rat) :
    ∀ x : Rat, xs.foldl min x ≤ x ∧ ∀ y ∈ xs, xs.foldl min x ≤ y := by
  induction xs with
  | nil => intro x; simp
  | cons z zs ih =>
    intro x
    simp only [List.foldl_cons]
    obtain ⟨h1, h2⟩ := ih (min x z)
    refine ⟨le_trans h1 (min_le_left x z), ?_⟩
    intro y hy
    rcases List.mem_cons.mp hy with rfl | hy
    · exact le_trans h1 (min_le_right x y)
    · exact h2 y hy

lemma listMax_spec (l : List Rat) (h : l ≠ []) :
    listMax l ∈ l ∧ ∀ y ∈ l, y ≤ listMax l := by
  match l with
  | [] => exact absurd rfl h
  | x :: xs =>
    constructor
    · exact foldl_max_mem xs x
    · intro y hy
      rcases List.mem_cons.mp hy with rfl | hy
      · exact (le_foldl_max xs y).1
      · exact (le_foldl_max xs x).2 y hy

lemma listMin_spec (l : List Rat) (h : l ≠ []) :
    listMin l ∈ l ∧ ∀ y ∈ l, listMin l ≤ y := by
  match l with
  | [] => exact absurd rfl h
  | x :: xs =>
    constructor
    · exact foldl_min_mem xs x
    · intro y hy
      rcases List.mem_cons.mp hy with rfl | hy
      · exact (foldl_min_le xs y).1
      · exact (foldl_min_le xs x).2 y hy

lemma listMax_perm {l l' : List Rat} (h : l.Perm l') : listMax l = listMax l' := by
  rcases eq_or_ne l [] with rfl | hne
  · rw [h.symm.eq_nil]
  · have hne' : l' ≠ [] := by
      intro hl'
      rw [hl'] at h
      exact hne h.eq_nil
    have hs := listMax_spec l hne
    have hs' := listMax_spec l' hne'
    exact le_antisymm (hs'.2 _ (h.mem_iff.mp hs.1)) (hs.2 _ (h.mem_iff.mpr hs'.1))

lemma listMin_perm {l l' : List Rat} (h : l.Perm l') : listMin l = listMin l' := by
  rcases eq_or_ne l [] with rfl | hne
  · rw [h.symm.eq_nil]
  · have hne' : l' ≠ [] := by
      intro hl'
      rw [hl'] at h
      exact hne h.eq_nil
    have hs := listMin_spec l hne
    have hs' := listMin_spec l' hne'
    exact le_antisymm (hs.2 _ (h.mem_iff.mpr hs'.1)) (hs'.2 _ (h.mem_iff.mp hs.1))

lemma foldl_max_pull (ys : List Rat) : ∀ a b : Rat,
    ys.foldl max (max a b) = max a (ys.foldl max b) := by
  induction ys with
  | nil => intro a b; simp
  | cons z zs ih =>
    intro a b
    simp only [List.foldl_cons]
    rw [max_assoc, ih]

lemma listMax_cons2 (x y : Rat) (ys : List Rat) :
    listMax (x :: y :: ys) = max x (listMax (y :: ys)) := by
  simp only [listMax, List.foldl_cons]
  exact foldl_max_pull ys x y

/-! ## Head of the stable descending sort = first-seen maximum -/

lemma sort_head (rs : List ResultEntry) :
    (List.insertionSort scoreGE (scoredOf rs)).head? = specBest rs := by
  induction rs with
  | nil => simp [scoredOf, List.insertionSort, specBest]
  | cons e rest ih =>
    have hmap : scoredOf (e :: rest) =
        (score_scenario e.policy e.simulation, e) :: scoredOf rest := rfl
    rw [hmap, List.insertionSort]
    cases hs : List.insertionSort scoreGE (scoredOf rest) with
    | nil =>
      rw [hs] at ih
      simp only [List.head?] at ih
      simp [List.orderedInsert, specBest, ← ih]
    | cons b t =>
      rw [hs] at ih
      simp only [List.head?] at ih
      simp only [specBest, ← ih, List.orderedInsert]
      by_cases hle : scoreGE (score_scenario e.policy e.simulation, e) b
      · have hb : b.1 ≤ score_scenario e.policy e.simulation := hle
        rw [if_pos hle, if_pos hb]
        rfl
      · have hb : ¬ b.1 ≤ score_scenario e.policy e.simulation := hle
        rw [if_neg hle, if_neg hb]
        rfl

lemma scoredOf_ne_nil {rs : List ResultEntry} (h : rs ≠ []) : scoredOf rs ≠ [] := by
  simpa [scoredOf] using h

lemma sort_ne_nil {rs : List ResultEntry} (h : rs ≠ []) :
    List.insertionSort scoreGE (scoredOf rs) ≠ [] := by
  intro hnil
  have hp := List.perm_insertionSort scoreGE (scoredOf rs)
  rw [hnil] at hp
  exact scoredOf_ne_nil h hp.symm.eq_nil

lemma eval_best (rs : List ResultEntry) :
    (evaluate_session rs).map bestEntryOf = specBest rs := by
  rw [← sort_head]
  unfold evaluate_session
  cases hs : List.insertionSort scoreGE (scoredOf rs) with
  | nil => simp only [hs]; rfl
  | cons b t =>
    simp only [hs]
    cases b with
    | mk bs be =>
      cases be
      rfl

lemma eval_toList_len (rs : List ResultEntry) (h : rs ≠ []) :
    (evaluate_session rs).toList.length = 1 := by
  unfold evaluate_session
  cases hs : List.insertionSort scoreGE (scoredOf rs) with
  | nil => exact absurd hs (sort_ne_nil h)
  | cons b t =>
    simp only [hs]
    rfl

lemma eval_metrics (rs : List ResultEntry) (h : rs ≠ []) :
    (evaluate_session rs).map (fun su => su.metrics) =
      some { num_scenarios := rs.length
             avg_co2_reduction_percent := (rs.map co2Of).sum / ((rs.map co2Of).length : Rat)
             avg_total_cost_usd := (rs.map costOf).sum / ((rs.map costOf).length : Rat)
             max_co2_reduction_percent := listMax (rs.map co2Of)
             min_total_cost_usd := listMin (rs.map costOf) } := by
  have hperm : List.Perm (List.insertionSort scoreGE (scoredOf rs)) (scoredOf rs) :=
    List.perm_insertionSort scoreGE (scoredOf rs)
  have hco2 : List.Perm ((List.insertionSort scoreGE (scoredOf rs)).map
      (fun p => p.2.simulation.co2_reduction_percent)) (rs.map co2Of) := by
    have h1 := hperm.map (fun p : Rat × ResultEntry => p.2.simulation.co2_reduction_percent)
    have h2 : (scoredOf rs).map (fun p : Rat × ResultEntry => p.2.simulation.co2_reduction_percent)
        = rs.map co2Of := by
      simp [scoredOf, co2Of, List.map_map, Function.comp]
    rwa [h2] at h1
  have hcost : List.Perm ((List.insertionSort scoreGE (scoredOf rs)).map
      (fun p => p.2.simulation.total_cost_usd)) (rs.map costOf) := by
    have h1 := hperm.map (fun p : Rat × ResultEntry => p.2.simulation.total_cost_usd)
    have h2 : (scoredOf rs).map (fun p : Rat × ResultEntry => p.2.simulation.total_cost_usd)
        = rs.map costOf := by
      simp [scoredOf, costOf, List.map_map, Function.comp]
    rwa [h2] at h1
  have hlen : (List.insertionSort scoreGE (scoredOf rs)).length = rs.length := by
    rw [hperm.length_eq]
    simp [scoredOf]
  unfold evaluate_session
  cases hs : List.insertionSort scoreGE (scoredOf rs) with
  | nil => exact absurd hs (sort_ne_nil h)
  | cons b t =>
    simp only [hs]
    rw [hs] at hperm hco2 hcost hlen
    simp only [Option.map_some', Option.some.injEq]
    congr 1
    all_goals first
      | exact hlen
      | exact listMax_perm hco2
      | exact listMin_perm hcost
      | rw [hco2.sum_eq, hco2.length_eq]
      | rw [hcost.sum_eq, hcost.length_eq]

lemma specBest_cons (e : ResultEntry) (rest : List ResultEntry) :
    specBest (e :: rest) =
      match specBest rest with
      | none => some (score_scenario e.policy e.simulation, e)
      | some p =>
        if p.1 ≤ score_scenario e.policy e.simulation
        then some (score_scenario e.policy e.simulation, e) else some p := rfl

lemma specBest_score (e : ResultEntry) (rest : List ResultEntry) :
    (specBest (e :: rest)).map (fun p => p.1) =
      some (listMax ((e :: rest).map scoreOf)) := by
  induction rest generalizing e with
  | nil => simp [specBest, listMax, scoreOf]
  | cons f rest' ih =>
    have ihf := ih f
    cases hsb : specBest (f :: rest') with
    | none => rw [hsb] at ihf; simp at ihf
    | some p =>
      rw [hsb] at ihf
      simp only [Option.map_some', Option.some.injEq] at ihf
      have hmap : (e :: f :: rest').map scoreOf =
          scoreOf e :: scoreOf f :: rest'.map scoreOf := rfl
      rw [hmap, listMax_cons2]
      rw [specBest_cons, hsb]
      have hX : listMax (scoreOf f :: rest'.map scoreOf) = p.1 := ihf.symm
      have hse : scoreOf e = score_scenario e.policy e.simulation := rfl
      show Option.map (fun q => q.1)
          (if p.1 ≤ score_scenario e.policy e.simulation
           then some (score_scenario e.policy e.simulation, e) else some p)
        = some (max (scoreOf e) (listMax (scoreOf f :: rest'.map scoreOf)))
      by_cases hle : p.1 ≤ score_scenario e.policy e.simulation
      · rw [if_pos hle]
        simp only [Option.map_some', Option.some.injEq]
        rw [hX, hse, max_eq_left hle]
      · rw [if_neg hle]
        simp only [Option.map_some', Option.some.injEq]
        rw [hX, hse, max_eq_right (le_of_not_le hle)]

lemma eval_best_score (rs : List ResultEntry) (h : rs ≠ []) :
    (evaluate_session rs).map (fun su => su.best_scenario.score) =
      some (listMax (rs.map scoreOf)) := by
  have h1 : (evaluate_session rs).map (fun su => su.best_scenario.score) =
      ((evaluate_session rs).map bestEntryOf).map (fun p => p.1) := by
    cases evaluate_session rs <;> rfl
  rw [h1, eval_best]
  cases rs with
  | nil => exact absurd rfl h
  | cons e rest => exact specBest_score e rest

/-! ## Concrete evaluation computations (kernel reduction of rational
arithmetic is unavailable, so these are established by norm_num) -/

lemma score_S1 : score_scenario entryS1.policy entryS1.simulation = 10 := by
  norm_num [score_scenario, entryS1, tPolicy]

lemma score_S2 : score_scenario entryS2.policy entryS2.simulation = 15/2 := by
  norm_num [score_scenario, entryS2, tPolicy]

lemma score_T1 : score_scenario entryT1.policy entryT1.simulation = 10 := by
  norm_num [score_scenario, entryT1, tPolicy]

lemma score_T2 : score_scenario entryT2.policy entryT2.simulation = 10 := by
  norm_num [score_scenario, entryT2, tPolicy]

lemma eval_S12 : evaluate_session [entryS1, entryS2] = some (Summary.mk
    (BestScenario.mk 10 tPolicy "regionA" ⟨"S1", []⟩ entryS1.simulation)
    [RankedScenario.mk 10 ⟨"S1", []⟩ entryS1.simulation,
     RankedScenario.mk (15/2) ⟨"S2", []⟩ entryS2.simulation]
    (Metrics.mk 2 (35/4) 150 10 100)) := by
  have hscored : scoredOf [entryS1, entryS2] = [(10, entryS1), ((15:Rat)/2, entryS2)] := by
    simp only [scoredOf, List.map_cons, List.map_nil]
    rw [score_S1, score_S2]
  have hsorted : List.insertionSort scoreGE (scoredOf [entryS1, entryS2])
      = [(10, entryS1), ((15:Rat)/2, entryS2)] := by
    rw [hscored]
    simp only [List.insertionSort, List.orderedInsert]
    rw [if_pos (show scoreGE (10, entryS1) ((15:Rat)/2, entryS2) from by norm_num [scoreGE])]
  unfold evaluate_session
  simp only [hsorted]
  simp only [List.map_cons, List.map_nil, List.length_cons, List.length_nil,
    listMax, listMin, List.foldl, List.sum_cons, List.sum_nil]
  norm_num [entryS1, entryS2, tPolicy]

lemma eval_S21 : evaluate_session [entryS2, entryS1] = some (Summary.mk
    (BestScenario.mk 10 tPolicy "regionA" ⟨"S1", []⟩ entryS1.simulation)
    [RankedScenario.mk 10 ⟨"S1", []⟩ entryS1.simulation,
     RankedScenario.mk (15/2) ⟨"S2", []⟩ entryS2.simulation]
    (Metrics.mk 2 (35/4) 150 10 100)) := by
  have hscored : scoredOf [entryS2, entryS1] = [((15:Rat)/2, entryS2), (10, entryS1)] := by
    simp only [scoredOf, List.map_cons, List.map_nil]
    rw [score_S1, score_S2]
  have hsorted : List.insertionSort scoreGE (scoredOf [entryS2, entryS1])
      = [(10, entryS1), ((15:Rat)/2, entryS2)] := by
    rw [hscored]
    simp only [List.insertionSort, List.orderedInsert]
    rw [if_neg (show ¬ scoreGE ((15:Rat)/2, entryS2) (10, entryS1) from by norm_num [scoreGE])]
  unfold evaluate_session
  simp only [hsorted]
  simp only [List.map_cons, List.map_nil, List.length_cons, List.length_nil,
    listMax, listMin, List.foldl, List.sum_cons, List.sum_nil]
  norm_num [entryS1, entryS2, tPolicy]

lemma eval_T12 : evaluate_session [entryT1, entryT2] = some (Summary.mk
    (BestScenario.mk 10 tPolicy "tieA" ⟨"S1", []⟩ entryT1.simulation)
    [RankedScenario.mk 10 ⟨"S1", []⟩ entryT1.simulation,
     RankedScenario.mk 10 ⟨"S2", []⟩ entryT2.simulation]
    (Metrics.mk 2 10 150 10 100)) := by
  have hscored : scoredOf [entryT1, entryT2] = [(10, entryT1), (10, entryT2)] := by
    simp only [scoredOf, List.map_cons, List.map_nil]
    rw [score_T1, score_T2]
  have hsorted : List.insertionSort scoreGE (scoredOf [entryT1, entryT2])
      = [(10, entryT1), (10, entryT2)] := by
    rw [hscored]
    simp only [List.insertionSort, List.orderedInsert]
    rw [if_pos (show scoreGE ((10:Rat), entryT1) ((10:Rat), entryT2) from by norm_num [scoreGE])]
  unfold evaluate_session
  simp only [hsorted]
  simp only [List.map_cons, List.map_nil, List.length_cons, List.length_nil,
    listMax, listMin, List.foldl, List.sum_cons, List.sum_nil]
  norm_num [entryT1, entryT2, tPolicy]

lemma eval_T21 : evaluate_session [entryT2, entryT1] = some (Summary.mk
    (BestScenario.mk 10 tPolicy "tieB" ⟨"S2", []⟩ entryT2.simulation)
    [RankedScenario.mk 10 ⟨"S2", []⟩ entryT2.simulation,
     RankedScenario.mk 10 ⟨"S1", []⟩ entryT1.simulation]
    (Metrics.mk 2 10 150 10 100)) := by
  have hscored : scoredOf [entryT2, entryT1] = [(10, entryT2), (10, entryT1)] := by
    simp only [scoredOf, List.map_cons, List.map_nil]
    rw [score_T1, score_T2]
  have hsorted : List.insertionSort scoreGE (scoredOf [entryT2, entryT1])
      = [(10, entryT2), (10, entryT1)] := by
    rw [hscored]
    simp only [List.insertionSort, List.orderedInsert]
    rw [if_pos (show scoreGE ((10:Rat), entryT2) ((10:Rat), entryT1) from by norm_num [scoreGE])]
  unfold evaluate_session
  simp only [hsorted]
  simp only [List.map_cons, List.map_nil, List.length_cons, List.length_nil,
    listMax, listMin, List.foldl, List.sum_cons, List.sum_nil]
  norm_num [entryT1, entryT2, tPolicy]

/-! ## Claim C5 -/

/-- Claim C5, counterexample.  Two results scoring 10.0 then 7.5: the
claim says the aggregate "reports mean=8.75, max=10.0, min=7.5", but the
summary's statistics are computed over the results' co2-reduction and
cost fields; its only minimum statistic is `min_total_cost_usd`, which
here is 100, not 7.5 — no reported statistic is a minimum over scores. -/
theorem C5_counterexample :
    score_scenario entryS1.policy entryS1.simulation = 10 ∧
    score_scenario entryS2.policy entryS2.simulation = 15/2 ∧
    (evaluate_session [entryS1, entryS2]).map (fun su => su.metrics) =
      some (Metrics.mk 2 (35/4) 150 10 100) ∧
    (evaluate_session [entryS1, entryS2]).map
        (fun su => su.metrics.min_total_cost_usd) ≠ some (15/2 : Rat) := by
  refine ⟨score_S1, score_S2, by rw [eval_S12]; rfl, ?_⟩
  rw [eval_S12]
  simp only [Option.map_some', ne_eq, Option.some.injEq]
  norm_num

/-- Claim C5, amended: when the barrier fires, the aggregate selects as
best the result with the maximum fitness score, ties broken by
first-seen order (proved against the spec-side `specBest`); for the two
results scoring 10.0 then 7.5 it selects the first (`S1`) as best, and
the reported summary statistics are over the results' co2-reduction and
cost fields: mean co2 reduction 8.75, mean cost 150, max co2 reduction
10.0 and min cost 100 (no minimum over scores is reported). -/
theorem C5_amended :
    (∀ rs : List ResultEntry, (evaluate_session rs).map bestEntryOf = specBest rs) ∧
    (evaluate_session [entryS1, entryS2]).map
        (fun su => su.best_scenario.scenario.scenario_id) = some "S1" ∧
    (evaluate_session [entryS1, entryS2]).map (fun su => su.metrics) =
      some (Metrics.mk 2 (35/4) 150 10 100) := by
  exact ⟨eval_best, by rw [eval_S12]; rfl, by rw [eval_S12]; rfl⟩

/-! ## Claim C7 -/

/-- Claim C7, counterexample.  The claim asserts the aggregate's best
selection is invariant under every permutation of the result list.  Two
distinct results with equal scores (ties broken by first-seen order)
break this: reversing them changes which entry is selected as best, so
the permuted list does not yield the same aggregate. -/
theorem C7_counterexample :
    score_scenario entryT1.policy entryT1.simulation =
      score_scenario entryT2.policy entryT2.simulation ∧
    entryT1 ≠ entryT2 ∧
    List.Perm [entryT1, entryT2] [entryT2, entryT1] ∧
    (evaluate_session [entryT1, entryT2]).map
        (fun su => su.best_scenario.region) = some "tieA" ∧
    (evaluate_session [entryT2, entryT1]).map
        (fun su => su.best_scenario.region) = some "tieB" ∧
    evaluate_session [entryT1, entryT2] ≠ evaluate_session [entryT2, entryT1] := by
  refine ⟨by rw [score_T1, score_T2], by decide, List.Perm.swap entryT2 entryT1 [],
    by rw [eval_T12]; rfl, by rw [eval_T21]; rfl, ?_⟩
  intro h
  have h2 : (evaluate_session [entryT1, entryT2]).map (fun su => su.best_scenario.region)
      = (evaluate_session [entryT2, entryT1]).map (fun su => su.best_scenario.region) := by
    rw [h]
  rw [eval_T12, eval_T21] at h2
  simp only [Option.map_some', Option.some.injEq] at h2
  exact absurd h2 (by decide)

/-- Claim C7, amended: the aggregation is a pure function of the result
list; its summary statistics and its best score are invariant under
every permutation of the list (the identity of the best entry is not, in
general: ties at the maximum score are broken by first-seen order).  For
the two results scoring 10.0 and 7.5, reversing the arrival order yields
an identical aggregate. -/
theorem C7_amended :
    (∀ rs rs' : List ResultEntry, List.Perm rs rs' →
      (evaluate_session rs).map (fun su => su.metrics) =
        (evaluate_session rs').map (fun su => su.metrics) ∧
      (evaluate_session rs).map (fun su => su.best_scenario.score) =
        (evaluate_session rs').map (fun su => su.best_scenario.score)) ∧
    evaluate_session [entryS1, entryS2] = evaluate_session [entryS2, entryS1] := by
  constructor
  · intro rs rs' h
    rcases eq_or_ne rs [] with rfl | hne
    · rw [h.symm.eq_nil]
      exact ⟨rfl, rfl⟩
    · have hne' : rs' ≠ [] := by
        intro hl'
        rw [hl'] at h
        exact hne h.eq_nil
      constructor
      · rw [eval_metrics rs hne, eval_metrics rs' hne']
        have hco2 := h.map co2Of
        have hcost := h.map costOf
        simp only [Option.some.injEq]
        congr 1
        all_goals first
          | exact h.length_eq
          | exact listMax_perm hco2
          | exact listMin_perm hcost
          | rw [hco2.sum_eq, hco2.length_eq]
          | rw [hcost.sum_eq, hcost.length_eq]
      · rw [eval_best_score rs hne, eval_best_score rs' hne']
        exact congrArg some (listMax_perm (h.map scoreOf))
  · rw [eval_S12, eval_S21]

/-- Witness for `C7_amended`: its permutation hypothesis discharged at
the concrete reversed pair of results. -/
theorem C7_witness :
    List.Perm [entryS1, entryS2] [entryS2, entryS1] ∧
    ((evaluate_session [entryS1, entryS2]).map (fun su => su.metrics) =
        (evaluate_session [entryS2, entryS1]).map (fun su => su.metrics) ∧
      (evaluate_session [entryS1, entryS2]).map (fun su => su.best_scenario.score) =
        (evaluate_session [entryS2, entryS1]).map (fun su => su.best_scenario.score)) :=
  ⟨List.Perm.swap entryS2 entryS1 [],
    C7_amended.1 [entryS1, entryS2] [entryS2, entryS1] (List.Perm.swap entryS2 entryS1 [])⟩

/-! ## EvaluationAgent state-machine helper lemmas -/

lemma runEval_append (sid : String) (ms₁ ms₂ : List EvalMsg) :
    ∀ st : EvalState, runEval sid st (ms₁ ++ ms₂) =
      ((runEval sid (runEval sid st ms₁).1 ms₂).1,
        (runEval sid st ms₁).2 ++ (runEval sid (runEval sid st ms₁).1 ms₂).2) := by
  induction ms₁ with
  | nil => intro st; simp [runEval]
  | cons m ms ih =>
    intro st
    simp only [List.cons_append, runEval, List.append_eq]
    rw [ih (handleEval st sid m).1]

lemma handleEval_simRes_new (st : EvalState) (sid : String) (e : ResultEntry)
    (h : lookupSession st.sessions sid = none) :
    handleEval st sid (.simResult e) = (⟨setSession st.sessions sid ⟨none, [e]⟩⟩, []) := by
  simp [handleEval, h]

lemma handleEval_simRes_noExp (st : EvalState) (sid : String) (acc : List ResultEntry)
    (e : ResultEntry) (h : lookupSession st.sessions sid = some ⟨none, acc⟩) :
    handleEval st sid (.simResult e) =
      (⟨setSession st.sessions sid ⟨none, acc ++ [e]⟩⟩, []) := by
  simp [handleEval, h]

lemma lookup_setSession (l : List (String × SessionRecord)) (sid : String)
    (r : SessionRecord) : lookupSession (setSession l sid r) sid = some r := by
  induction l with
  | nil => simp [setSession, lookupSession]
  | cons kv rest ih =>
    obtain ⟨k, v⟩ := kv
    by_cases hk : k = sid
    · simp [setSession, lookupSession, hk]
    · simp [setSession, lookupSession, hk, ih]

lemma runEval_lateResults (sid : String) (es : List ResultEntry) :
    ∀ st : EvalState,
      (lookupSession st.sessions sid = none ∨
        ∃ acc, lookupSession st.sessions sid = some ⟨none, acc⟩) →
      (runEval sid st (es.map .simResult)).2 = es.map (fun _ => []) := by
  induction es with
  | nil => intro st _; simp [runEval]
  | cons e es' ih =>
    intro st h
    rcases h with h | ⟨acc, h⟩
    · simp only [List.map_cons, runEval, handleEval_simRes_new st sid e h]
      rw [ih _ (Or.inr ⟨[e], lookup_setSession _ _ _⟩)]
    · simp only [List.map_cons, runEval, handleEval_simRes_noExp st sid acc e h]
      rw [ih _ (Or.inr ⟨acc ++ [e], lookup_setSession _ _ _⟩)]

lemma handleEval_count_new (st : EvalState) (sid : String) (c : Int)
    (h : lookupSession st.sessions sid = none) :
    handleEval st sid (.scenarioCount c) =
      (⟨setSession st.sessions sid ⟨some c, []⟩⟩, []) := by
  simp [handleEval, h]

lemma handleEval_count_upd (st : EvalState) (sid : String) (c : Int) (r : SessionRecord)
    (h : lookupSession st.sessions sid = some r) :
    handleEval st sid (.scenarioCount c) =
      (⟨setSession st.sessions sid ⟨some c, r.results⟩⟩, []) := by
  simp [handleEval, h]

lemma lookup_single (sid : String) (r : SessionRecord) :
    lookupSession [(sid, r)] sid = some r := by
  simp [lookupSession]

lemma setSession_single (sid : String) (r r' : SessionRecord) :
    setSession [(sid, r)] sid r' = [(sid, r')] := by
  simp [setSession]

lemma collectPhase (sid : String) (js : List ResultEntry) :
    ∀ acc : List ResultEntry,
      runEval sid ⟨[(sid, ⟨none, acc⟩)]⟩ (js.map .simResult) =
        (⟨[(sid, ⟨none, acc ++ js⟩)]⟩, js.map (fun _ => [])) := by
  induction js with
  | nil => intro acc; simp [runEval]
  | cons e js' ih =>
    intro acc
    simp only [List.map_cons, runEval,
      handleEval_simRes_noExp _ sid acc e (lookup_single sid _), setSession_single]
    rw [ih (acc ++ [e])]
    simp [List.append_assoc]

lemma collectPhase_start (sid : String) (js : List ResultEntry) (h : js ≠ []) :
    runEval sid ⟨[]⟩ (js.map .simResult) =
      (⟨[(sid, ⟨none, js⟩)]⟩, js.map (fun _ => [])) := by
  cases js with
  | nil => exact absurd rfl h
  | cons e js' =>
    simp only [List.map_cons, runEval, handleEval_simRes_new ⟨[]⟩ sid e rfl]
    have hset : setSession ([] : List (String × SessionRecord)) sid ⟨none, [e]⟩
        = [(sid, ⟨none, [e]⟩)] := rfl
    rw [hset, collectPhase sid js' [e]]
    simp

lemma removeSession_single (sid : String) (r : SessionRecord) :
    removeSession [(sid, r)] sid = [] := by
  simp [removeSession]

lemma runEval_cons (sid : String) (st : EvalState) (m : EvalMsg) (ms : List EvalMsg) :
    runEval sid st (m :: ms) =
      ((runEval sid (handleEval st sid m).1 ms).1,
        (handleEval st sid m).2 :: (runEval sid (handleEval st sid m).1 ms).2) := rfl

lemma handleEval_simRes_exp (st : EvalState) (sid : String) (acc : List ResultEntry)
    (e : ResultEntry) (K : Int)
    (h : lookupSession st.sessions sid = some ⟨some K, acc⟩) :
    handleEval st sid (.simResult e) =
      if K ≤ ((acc ++ [e]).length : Int)
      then (⟨removeSession st.sessions sid⟩, (evaluate_session (acc ++ [e])).toList)
      else (⟨setSession st.sessions sid ⟨some K, acc ++ [e]⟩⟩, []) := by
  simp only [handleEval, h, Option.getD_some]

lemma firePhase (sid : String) (js : List ResultEntry) :
    ∀ (acc : List ResultEntry) (K : Int), js ≠ [] →
      K = ((acc.length + js.length : Nat) : Int) →
      runEval sid ⟨[(sid, ⟨some K, acc⟩)]⟩ (js.map .simResult) =
        (⟨[]⟩, js.dropLast.map (fun _ => []) ++ [(evaluate_session (acc ++ js)).toList]) := by
  induction js with
  | nil => intro acc K h _; exact absurd rfl h
  | cons e js' ih =>
    intro acc K _ hK
    have hhe := handleEval_simRes_exp ⟨[(sid, ⟨some K, acc⟩)]⟩ sid acc e K (lookup_single sid _)
    cases js' with
    | nil =>
      have hfire : K ≤ ((acc ++ [e]).length : Int) := by
        rw [hK]
        norm_cast
        simp only [List.length_append, List.length_cons, List.length_nil]
        omega
      rw [if_pos hfire] at hhe
      simp only [List.map_cons, List.map_nil, runEval, hhe, removeSession_single]
      simp
    | cons f js'' =>
      have hnofire : ¬ K ≤ ((acc ++ [e]).length : Int) := by
        rw [hK]
        norm_cast
        simp only [List.length_append, List.length_cons, List.length_nil]
        omega
      rw [if_neg hnofire] at hhe
      rw [show (e :: f :: js'').map EvalMsg.simResult
            = EvalMsg.simResult e :: (f :: js'').map EvalMsg.simResult from rfl]
      rw [runEval_cons, hhe, setSession_single]
      have hK2 : K = (((acc ++ [e]).length + (f :: js'').length : Nat) : Int) := by
        rw [hK]
        norm_cast
        simp only [List.length_append, List.length_cons, List.length_nil]
        omega
      simp only [ih (acc ++ [e]) K (by simp) hK2]
      simp [List.dropLast, List.append_assoc]

lemma map_const_len (l : List ResultEntry) :
    ((l.map fun _ => ([] : List Summary)).map List.length) = List.replicate l.length 0 := by
  induction l with
  | nil => rfl
  | cons e t ih => simp [List.replicate_succ, ih]

lemma zeros_glue (a b : Nat) :
    List.replicate a (0 : Nat) ++ (0 :: (List.replicate b 0 ++ [1]))
      = List.replicate (a + b + 1) 0 ++ [1] := by
  rw [show (0 :: (List.replicate b (0 : Nat) ++ [1]))
        = (0 :: List.replicate b 0) ++ [1] from rfl]
  rw [← List.replicate_succ, ← List.append_assoc, ← List.replicate_add]
  rfl

/-- Claim C1, amended: for a session with K ≥ 1 expected results, for
every interleaving in which the single `SCENARIO_COUNT{count=K}` envelope
arrives before the K-th `SIM_RESULT` (insertion position `i < K` among
the K results), the barrier fires exactly once, exactly when the K-th
`SIM_RESULT` is processed: the per-message emission counts are K zeros
followed by a single 1 at the final (K-th-result) message.  (When the
count arrives after all K results the barrier does not fire at all —
see the counterexample.) -/
theorem C1_amended : ∀ (rs : List ResultEntry) (i : Nat) (sid : String), i < rs.length →
    ((runEval sid ⟨[]⟩ ((rs.take i).map .simResult
        ++ EvalMsg.scenarioCount ((rs.length : Nat) : Int)
          :: (rs.drop i).map .simResult)).2.map List.length)
      = List.replicate rs.length 0 ++ [1] := by
  intro rs i sid hi
  have hrs_ne : rs ≠ [] := by
    intro h
    rw [h] at hi
    simp at hi
  have hdrop_ne : rs.drop i ≠ [] := by
    intro h
    have h2 := congrArg List.length h
    rw [List.length_drop] at h2
    simp only [List.length_nil] at h2
    omega
  have hKsplit : (rs.take i).length + (rs.drop i).length = rs.length := by
    rw [List.length_take, List.length_drop]
    omega
  have htake_len : (rs.take i).length = i := by
    rw [List.length_take]
    omega
  have htail : ([(evaluate_session rs).toList]).map List.length = [1] := by
    simp [eval_toList_len rs hrs_ne]
  cases i with
  | zero =>
    simp only [List.take_zero, List.map_nil, List.nil_append, List.drop_zero]
    rw [runEval_cons, handleEval_count_new ⟨[]⟩ sid _ rfl]
    simp only [setSession]
    rw [firePhase sid rs [] ((rs.length : Nat) : Int) hrs_ne (by simp)]
    simp only [List.map_cons, List.map_append, List.map_nil, List.nil_append,
      map_const_len, List.length_nil, List.length_dropLast, eval_toList_len rs hrs_ne]
    rw [show ((0 : Nat) :: (List.replicate (rs.length - 1) 0 ++ [1]))
          = List.replicate 0 (0 : Nat)
            ++ (0 :: (List.replicate (rs.length - 1) 0 ++ [1])) from rfl]
    rw [zeros_glue]
    congr 2
    omega
  | succ i' =>
    have htake_ne : rs.take (i' + 1) ≠ [] := by
      intro h
      have h2 := congrArg List.length h
      rw [htake_len] at h2
      simp at h2
    rw [runEval_append, collectPhase_start sid (rs.take (i' + 1)) htake_ne]
    rw [runEval_cons,
      handleEval_count_upd _ sid _ ⟨none, rs.take (i' + 1)⟩ (lookup_single sid _),
      setSession_single]
    rw [firePhase sid (rs.drop (i' + 1)) (rs.take (i' + 1)) ((rs.length : Nat) : Int)
      hdrop_ne (by rw [hKsplit])]
    rw [List.take_append_drop]
    simp only [List.map_append, List.map_cons, List.map_nil, List.nil_append,
      map_const_len, List.length_nil, List.length_dropLast, eval_toList_len rs hrs_ne]
    rw [htake_len, List.length_drop]
    rw [zeros_glue]
    congr 2
    omega

/-- Claim C1, counterexample.  K = 1, interleaving [SIM_RESULT,
SCENARIO_COUNT{1}] (the count arrives after all results): no message
emits a summary — the barrier never fires, although the final session
record holds expected = 1 and one result.  `_handle_scenario_count`
records the count without checking the threshold, so the claim's "fires
exactly once ... including when the count arrives after all of the
results" is false. -/
theorem C1_counterexample :
    (runEval "abc" ⟨[]⟩ [.simResult entryS1, .scenarioCount 1]).2 = [[], []] ∧
    lookupSession (runEval "abc" ⟨[]⟩
        [.simResult entryS1, .scenarioCount 1]).1.sessions "abc"
      = some ⟨some 1, [entryS1]⟩ :=
  ⟨by decide, by decide⟩

/-- Witness for `C1_amended`: K = 2 with the count inserted after the
first result (position 1 < 2). -/
theorem C1_witness :
    1 < ([entryS1, entryT1] : List ResultEntry).length ∧
    ((runEval "abc" ⟨[]⟩ (([entryS1, entryT1].take 1).map .simResult
        ++ EvalMsg.scenarioCount ((([entryS1, entryT1] : List ResultEntry).length : Nat) : Int)
          :: (([entryS1, entryT1] : List ResultEntry).drop 1).map .simResult)).2.map List.length)
      = List.replicate ([entryS1, entryT1] : List ResultEntry).length 0 ++ [1] :=
  ⟨by decide, C1_amended [entryS1, entryT1] 1 "abc" (by decide)⟩

/-- Claim C3, counterexample.  Session with K = 1: the barrier fires on
the first result (emission counts [0,1,0]); the surplus second result is
then silently accepted into a fresh barrier record for the same session
(`expected = none`, results = [surplus]) — contradicting the claim's "it
is not accepted into barrier state" (and no LateOrDuplicateResult flag
exists anywhere in the handler). -/
theorem C3_counterexample :
    (runEval "abc" ⟨[]⟩
        [.scenarioCount 1, .simResult entryS1, .simResult entryS1]).2.map List.length
      = [0, 1, 0] ∧
    lookupSession (runEval "abc" ⟨[]⟩
        [.scenarioCount 1, .simResult entryS1, .simResult entryS1]).1.sessions "abc"
      = some ⟨none, [entryS1]⟩ :=
  ⟨by decide, by decide⟩

/-- Claim C3, amended: after a session's barrier has fired (its record
deleted), a subsequent `SIM_RESULT` emits nothing — it never re-fires the
aggregation and cannot mutate the already-emitted aggregate — but it is
silently accepted into a freshly created barrier record with unknown
`expected` (rather than being ignored or flagged as
LateOrDuplicateResult), and any number of further surplus results for
that session likewise emit nothing. -/
theorem C3_amended :
    (∀ (st : EvalState) (sid : String) (e : ResultEntry),
      lookupSession st.sessions sid = none →
      handleEval st sid (.simResult e) = (⟨setSession st.sessions sid ⟨none, [e]⟩⟩, [])) ∧
    (∀ (st : EvalState) (sid : String) (es : List ResultEntry),
      lookupSession st.sessions sid = none →
      (runEval sid st (es.map .simResult)).2 = es.map (fun _ => [])) :=
  ⟨handleEval_simRes_new, fun st sid es h => runEval_lateResults sid es st (Or.inl h)⟩

/-- Witness for `C3_amended`: the deleted-session hypothesis discharged
at the empty state. -/
theorem C3_witness :
    lookupSession (EvalState.mk []).sessions "abc" = none ∧
    handleEval ⟨[]⟩ "abc" (.simResult entryS1) = (⟨[("abc", ⟨none, [entryS1]⟩)]⟩, []) ∧
    (runEval "abc" ⟨[]⟩ ([entryS1, entryS1].map .simResult)).2
      = [entryS1, entryS1].map (fun _ => []) :=
  ⟨rfl, C3_amended.1 ⟨[]⟩ "abc" entryS1 rfl, C3_amended.2 ⟨[]⟩ "abc" [entryS1, entryS1] rfl⟩

/-! ## Claim C4 -/

/-- Claim C4, counterexample.  When the fan-out stage generates zero
scenarios, `ScenarioAgent.handle_message` returns after logging an error,
sending nothing at all: in particular it sends no `NoWorkGenerated`
report to any downstream stage (the source comment reads "You could
notify ReportAgent here with a failure, but for now we just stop"). -/
theorem C4_counterexample :
    scenarioHandle []
      { sender := "Orchestrator", receiver := "ScenarioAgent",
        type := "REGION_CONTEXT",
        payload := .regionContext tPolicy "regionA", session_id := "s1" } = [] := by
  decide

/-- Claim C4, amended: for every session in which the fan-out stage
generates zero scenarios, the agent short-circuits, sending no
`SCENARIO_COUNT`, no `SCENARIO`, and no message of any kind (so the join
agent is never invoked for that session); it only logs an error and does
NOT report a `NoWorkGenerated` condition to the stage that would have
consumed the summary.  For a nonempty scenario list it sends the count
followed by one `SCENARIO` per scenario. -/
theorem C4_amended :
    (∀ msg : AgentMessage, scenarioHandle [] msg = []) ∧
    (∀ (scenarios : List Scenario) (msg : AgentMessage) (policy : Policy) (region : String),
      msg.type = "REGION_CONTEXT" → msg.payload = .regionContext policy region →
      scenarios ≠ [] →
      scenarioHandle scenarios msg =
        mkCountMsg msg.session_id scenarios.length ::
          scenarios.map (mkScenarioMsg msg.session_id policy region)) := by
  constructor
  · intro msg
    unfold scenarioHandle
    by_cases ht : msg.type ≠ "REGION_CONTEXT"
    · rw [if_pos ht]
    · rw [if_neg ht]
      cases hp : msg.payload <;> simp
  · intro scenarios msg policy region ht hp hne
    unfold scenarioHandle
    rw [if_neg (by simp [ht]), hp]
    simp only [if_neg hne]

/-- Witness for `C4_amended`: both parts applied at a concrete
`REGION_CONTEXT` message, with the K = 0 and K = 1 scenario lists. -/
theorem C4_witness :
    scenarioHandle []
      { sender := "Orchestrator", receiver := "ScenarioAgent",
        type := "REGION_CONTEXT",
        payload := .regionContext tPolicy "regionA", session_id := "s1" } = [] ∧
    scenarioHandle [Scenario.mk "S1" []]
      { sender := "Orchestrator", receiver := "ScenarioAgent",
        type := "REGION_CONTEXT",
        payload := .regionContext tPolicy "regionA", session_id := "s1" } =
      mkCountMsg "s1" 1 :: [Scenario.mk "S1" []].map (mkScenarioMsg "s1" tPolicy "regionA") :=
  ⟨C4_amended.1 _,
    C4_amended.2 [Scenario.mk "S1" []] _ tPolicy "regionA" rfl rfl (by decide)⟩

/-! ## Claim C9 -/

/-- Claim C9, confirmed: `MessageBus.send` appends exactly the one given
envelope to the tail of the pending queue and never fails (it is a total
function): the agent registry, the agents' internal state, the envelopes
already queued and their relative order are unchanged, and the queue
length grows by exactly one. -/
theorem C9_send : ∀ (σ : Type) (st : BusState σ) (m : AgentMessage),
    (send st m).queue = st.queue ++ [m] ∧
    (send st m).agents = st.agents ∧
    (send st m).world = st.world ∧
    (send st m).queue.length = st.queue.length + 1 ∧
    (send st m).queue.take st.queue.length = st.queue := by
  intro σ st m
  refine ⟨rfl, rfl, rfl, by simp [send], ?_⟩
  show (st.queue ++ [m]).take st.queue.length = st.queue
  exact List.take_left _ _

/-! ## MessageBus step lemmas -/

lemma stepBus_foreign {σ : Type} (f : Option String) (st : BusState σ) (m : AgentMessage)
    (rest : List AgentMessage) (h : foreignTo f m = true) :
    stepBus f st m rest = ({ st with queue := rest ++ [m] }, [.recycled m]) := by
  simp [stepBus, h]

lemma stepBus_unknown {σ : Type} (f : Option String) (st : BusState σ) (m : AgentMessage)
    (rest : List AgentMessage) (h1 : foreignTo f m = false)
    (h2 : lookupAgent st.agents m.receiver = none) :
    stepBus f st m rest = ({ st with queue := rest }, [.unknownReceiver m]) := by
  simp [stepBus, h1, h2]

lemma stepBus_deliver {σ : Type} (f : Option String) (st : BusState σ) (m : AgentMessage)
    (rest : List AgentMessage) (a : Agent σ) (h1 : foreignTo f m = false)
    (h2 : lookupAgent st.agents m.receiver = some a) :
    stepBus f st m rest =
      ({ agents := st.agents, queue := rest ++ (a st.world m).sent,
         world := (a st.world m).world },
        .dispatched m ::
          (match (a st.world m).err with
           | some e => [.handlerFailure m.type m.receiver m.session_id e]
           | none => [])) := by
  simp [stepBus, h1, h2]

lemma runFuel_cons_eq {σ : Type} (f : Option String) (ms : Option Nat) (fuel : Nat)
    (ag : List (String × Agent σ)) (m : AgentMessage) (rest : List AgentMessage)
    (w : σ) (steps : Nat) (tr : List Event) :
    runFuel f ms (fuel + 1) ⟨ag, m :: rest, w⟩ steps tr =
      if limitReached ms steps then ⟨⟨ag, m :: rest, w⟩, steps, tr, .stepLimit⟩
      else
        runFuel f ms fuel (stepBus f ⟨ag, m :: rest, w⟩ m rest).1 (steps + 1)
          (tr ++ (stepBus f ⟨ag, m :: rest, w⟩ m rest).2) := rfl

lemma runFuel_nil_eq {σ : Type} (f : Option String) (ms : Option Nat) (fuel : Nat)
    (ag : List (String × Agent σ)) (w : σ) (steps : Nat) (tr : List Event) :
    runFuel f ms (fuel + 1) ⟨ag, [], w⟩ steps tr = ⟨⟨ag, [], w⟩, steps, tr, .queueEmpty⟩ := rfl

lemma limitReached_none_eq (steps : Nat) : limitReached none steps = false := rfl

/-! ## Claim C8 helper lemmas -/

lemma runFuel_steps_le {σ : Type} (f : Option String) (n : Nat) :
    ∀ (fuel : Nat) (st : BusState σ) (steps : Nat) (tr : List Event), steps ≤ n →
      (runFuel f (some n) fuel st steps tr).steps ≤ n := by
  intro fuel
  induction fuel with
  | zero => intro st steps tr h; exact h
  | succ fuel ih =>
    intro st steps tr h
    obtain ⟨ag, q, w⟩ := st
    cases q with
    | nil => exact h
    | cons m rest =>
      rw [runFuel_cons_eq]
      by_cases hl : n ≤ steps
      · rw [if_pos (by simp [limitReached, hl])]
        exact h
      · rw [if_neg (by simp [limitReached, hl])]
        exact ih _ (steps + 1) _ (by omega)

lemma runFuel_no_fuelOut {σ : Type} (f : Option String) (n : Nat) :
    ∀ (fuel : Nat) (st : BusState σ) (steps : Nat) (tr : List Event),
      steps ≤ n → n - steps < fuel →
      (runFuel f (some n) fuel st steps tr).exit ≠ .fuelOut := by
  intro fuel
  induction fuel with
  | zero => intro st steps tr h hf; omega
  | succ fuel ih =>
    intro st steps tr h hf
    obtain ⟨ag, q, w⟩ := st
    cases q with
    | nil => simp [runFuel_nil_eq]
    | cons m rest =>
      rw [runFuel_cons_eq]
      by_cases hl : n ≤ steps
      · rw [if_pos (by simp [limitReached, hl])]
        simp
      · rw [if_neg (by simp [limitReached, hl])]
        exact ih _ (steps + 1) _ (by omega) (by omega)

lemma countAttempts_append (tr evs : List Event) :
    countAttempts (tr ++ evs) = countAttempts tr + countAttempts evs := by
  simp [countAttempts, List.filter_append]

lemma stepBus_attempts {σ : Type} (f : Option String) (st : BusState σ) (m : AgentMessage)
    (rest : List AgentMessage) : countAttempts (stepBus f st m rest).2 = 1 := by
  by_cases hf : foreignTo f m
  · rw [stepBus_foreign f st m rest hf]
    rfl
  · cases h2 : lookupAgent st.agents m.receiver with
    | none =>
      rw [stepBus_unknown f st m rest (by simpa using hf) h2]
      rfl
    | some a =>
      rw [stepBus_deliver f st m rest a (by simpa using hf) h2]
      cases (a st.world m).err <;> rfl

lemma runFuel_attempts {σ : Type} (f : Option String) (ms : Option Nat) :
    ∀ (fuel : Nat) (st : BusState σ) (steps : Nat) (tr : List Event),
      countAttempts (runFuel f ms fuel st steps tr).trace + steps =
        countAttempts tr + (runFuel f ms fuel st steps tr).steps := by
  intro fuel
  induction fuel with
  | zero => intro st steps tr; rfl
  | succ fuel ih =>
    intro st steps tr
    obtain ⟨ag, q, w⟩ := st
    cases q with
    | nil => rfl
    | cons m rest =>
      rw [runFuel_cons_eq]
      by_cases hl : limitReached ms steps
      · rw [if_pos hl]
      · rw [if_neg hl]
        have h := ih (stepBus f ⟨ag, m :: rest, w⟩ m rest).1 (steps + 1)
          (tr ++ (stepBus f ⟨ag, m :: rest, w⟩ m rest).2)
        rw [countAttempts_append, stepBus_attempts] at h
        omega

/-- Claim C8, confirmed: with `max_steps = n`, `run` performs at most n
dispatch attempts and stops: enough fuel (n+1 loop iterations) always
suffices to reach a real exit (`run` terminates), the `steps` counter
never exceeds n, and every loop pass — same-session delivery,
foreign-session recycle, or unknown-receiver drop — counts as exactly
one attempt (`countAttempts` of the trace equals the steps counter). -/
theorem C8_step_limit : ∀ (σ : Type) (reg : List (String × Agent σ))
    (q : List AgentMessage) (w : σ) (f : Option String) (n : Nat),
    (runFuel f (some n) (n + 1) ⟨reg, q, w⟩ 0 []).exit ≠ .fuelOut ∧
    (∀ fuel, (runFuel f (some n) fuel ⟨reg, q, w⟩ 0 []).steps ≤ n) ∧
    (∀ fuel, countAttempts (runFuel f (some n) fuel ⟨reg, q, w⟩ 0 []).trace =
      (runFuel f (some n) fuel ⟨reg, q, w⟩ 0 []).steps) := by
  intro σ reg q w f n
  refine ⟨runFuel_no_fuelOut f n (n + 1) _ 0 [] (by omega) (by omega), ?_, ?_⟩
  · intro fuel
    exact runFuel_steps_le f n fuel _ 0 [] (by omega)
  · intro fuel
    have h := runFuel_attempts f (some n) fuel ⟨reg, q, w⟩ 0 []
    simpa [countAttempts] using h

/-! ## Claim C10 helper lemma -/

lemma runFuel_foreign_forever {σ : Type} (s : String) :
    ∀ (fuel : Nat) (st : BusState σ) (steps : Nat) (tr : List Event),
      (∃ m ∈ st.queue, m.session_id ≠ s) →
      (runFuel (some s) none fuel st steps tr).exit = .fuelOut ∧
      ∃ m ∈ (runFuel (some s) none fuel st steps tr).state.queue, m.session_id ≠ s := by
  intro fuel
  induction fuel with
  | zero => intro st steps tr h; exact ⟨rfl, h⟩
  | succ fuel ih =>
    intro st steps tr h
    obtain ⟨ag, q, w⟩ := st
    cases q with
    | nil =>
      obtain ⟨m, hm, _⟩ := h
      exact absurd hm (List.not_mem_nil m)
    | cons hd rest =>
      rw [runFuel_cons_eq]
      rw [if_neg (by simp [limitReached_none_eq])]
      obtain ⟨m, hm, hms⟩ := h
      by_cases hf : foreignTo (some s) hd = true
      · rw [stepBus_foreign _ _ _ _ hf]
        apply ih
        rcases List.mem_cons.mp hm with rfl | hmr
        · exact ⟨m, by simp, hms⟩
        · exact ⟨m, by simp [hmr], hms⟩
      · have hd_same : hd.session_id = s := by
          simp [foreignTo] at hf
          exact hf
        have hm_ne : m ≠ hd := by
          intro hcontra
          rw [hcontra] at hms
          exact hms hd_same
        have hmr : m ∈ rest := by
          rcases List.mem_cons.mp hm with hcontra | hmr
          · exact absurd hcontra hm_ne
          · exact hmr
        cases h2 : lookupAgent ag hd.receiver with
        | none =>
          rw [stepBus_unknown _ _ _ _ (by simpa using hf) h2]
          exact ih _ _ _ ⟨m, hmr, hms⟩
        | some a =>
          rw [stepBus_deliver _ _ _ _ a (by simpa using hf) h2]
          exact ih _ _ _ ⟨m, List.mem_append_left _ hmr, hms⟩

/-- Claim C10, confirmed: with a session filter and no step limit, a
queue holding at least one envelope of a different session never drains:
for every amount of fuel the loop is still running (the only exit ever
taken is fuel exhaustion, the embedding of non-termination) and the
queue still holds a foreign-session envelope, which is popped and
re-appended forever. -/
theorem C10_foreign_cycles : ∀ (σ : Type) (reg : List (String × Agent σ))
    (q : List AgentMessage) (w : σ) (s : String) (fuel : Nat),
    (∃ m ∈ q, m.session_id ≠ s) →
    (runFuel (some s) none fuel ⟨reg, q, w⟩ 0 []).exit = .fuelOut ∧
    ∃ m ∈ (runFuel (some s) none fuel ⟨reg, q, w⟩ 0 []).state.queue, m.session_id ≠ s := by
  intro σ reg q w s fuel h
  exact runFuel_foreign_forever s fuel ⟨reg, q, w⟩ 0 [] h

/-- Witness for `C10_foreign_cycles`: a single foreign-session envelope
under filter "mine", run with fuel 5. -/
theorem C10_witness :
    (∃ m ∈ [AgentMessage.mk "A" "B" "START" (.tagged "x") "other" none],
      m.session_id ≠ "mine") ∧
    ((runFuel (some "mine") none 5
        ⟨([] : List (String × Agent Unit)),
          [AgentMessage.mk "A" "B" "START" (.tagged "x") "other" none], ()⟩ 0 []).exit
      = .fuelOut ∧
    ∃ m ∈ (runFuel (some "mine") none 5
        ⟨([] : List (String × Agent Unit)),
          [AgentMessage.mk "A" "B" "START" (.tagged "x") "other" none], ()⟩ 0
        []).state.queue, m.session_id ≠ "mine") :=
  ⟨by decide, C10_foreign_cycles Unit []
    [AgentMessage.mk "A" "B" "START" (.tagged "x") "other" none] () "mine" 5 (by decide)⟩

/-- Claim C6, confirmed: errors are contained at the dispatch boundary.
(1) An envelope addressed to an unregistered receiver is logged as an
`unknownReceiver` diagnostic and dropped, and the loop continues with
the remaining queue.  (2) A handler that raises is caught: the exception
is logged with its (message type, receiver, session) context, the
envelope is dropped (only the handler's own sends join the queue), and
dispatch continues.  (3) A run over a queue holding only an envelope to
an unknown receiver completes normally (exit `queueEmpty`, the embedding
has no exceptional exit at all), the queue drains, and the diagnostic is
recorded in the trace. -/
theorem C6_error_containment : ∀ (σ : Type),
    (∀ (st : BusState σ) (m : AgentMessage) (rest : List AgentMessage) (f : Option String),
      foreignTo f m = false → lookupAgent st.agents m.receiver = none →
      stepBus f st m rest = ({ st with queue := rest }, [.unknownReceiver m])) ∧
    (∀ (st : BusState σ) (m : AgentMessage) (rest : List AgentMessage) (f : Option String)
      (a : Agent σ) (e : String),
      foreignTo f m = false → lookupAgent st.agents m.receiver = some a →
      (a st.world m).err = some e →
      stepBus f st m rest =
        ({ agents := st.agents, queue := rest ++ (a st.world m).sent,
           world := (a st.world m).world },
          [.dispatched m, .handlerFailure m.type m.receiver m.session_id e])) ∧
    (∀ (reg : List (String × Agent σ)) (w : σ) (m : AgentMessage),
      lookupAgent reg m.receiver = none →
      runFuel none none 2 ⟨reg, [m], w⟩ 0 [] =
        ⟨⟨reg, [], w⟩, 1, [.unknownReceiver m], .queueEmpty⟩) := by
  intro σ
  refine ⟨fun st m rest f h1 h2 => stepBus_unknown f st m rest h1 h2, ?_, ?_⟩
  · intro st m rest f a e h1 h2 he
    rw [stepBus_deliver f st m rest a h1 h2, he]
  · intro reg w m h
    rw [runFuel_cons_eq, if_neg (by simp [limitReached_none_eq])]
    rw [stepBus_unknown none ⟨reg, [m], w⟩ m [] rfl h]
    rfl

/-- Witness for `C6_error_containment`: all three parts applied at
concrete states — an unregistered receiver `"NoSuchAgent"` and a handler
that raises `"boom"`. -/
theorem C6_witness :
    (stepBus (σ := Unit) none ⟨[], [AgentMessage.mk "X" "NoSuchAgent" "START" (.tagged "p") "s1" none], ()⟩
        (AgentMessage.mk "X" "NoSuchAgent" "START" (.tagged "p") "s1" none) [] =
      (⟨[], [], ()⟩, [.unknownReceiver (AgentMessage.mk "X" "NoSuchAgent" "START" (.tagged "p") "s1" none)])) ∧
    (stepBus (σ := Unit) none
        ⟨[("A", fun w _ => HandlerOut.mk w [] (some "boom"))],
          [AgentMessage.mk "X" "A" "START" (.tagged "p") "s1" none], ()⟩
        (AgentMessage.mk "X" "A" "START" (.tagged "p") "s1" none) [] =
      (⟨[("A", fun w _ => HandlerOut.mk w [] (some "boom"))], [], ()⟩,
        [.dispatched (AgentMessage.mk "X" "A" "START" (.tagged "p") "s1" none),
         .handlerFailure "START" "A" "s1" "boom"])) ∧
    (runFuel none none 2
        ⟨([] : List (String × Agent Unit)),
          [AgentMessage.mk "X" "NoSuchAgent" "START" (.tagged "p") "s1" none], ()⟩ 0 [] =
      ⟨⟨[], [], ()⟩, 1,
        [.unknownReceiver (AgentMessage.mk "X" "NoSuchAgent" "START" (.tagged "p") "s1" none)],
        .queueEmpty⟩) :=
  ⟨(C6_error_containment Unit).1 _ _ _ _ rfl rfl,
   (C6_error_containment Unit).2.1 _ _ _ _ (fun w _ => HandlerOut.mk w [] (some "boom")) "boom" rfl rfl rfl,
   (C6_error_containment Unit).2.2 _ _ _ rfl⟩

/-! ## Claim C2 helper lemmas -/

lemma delivs_append (tr evs : List Event) :
    delivs (tr ++ evs) = delivs tr ++ delivs evs := by
  simp [delivs, List.filterMap_append]

lemma session_of_not_foreign {s : String} {m : AgentMessage}
    (h : foreignTo (some s) m = false) : m.session_id = s := by
  simp [foreignTo] at h
  exact h

lemma sameOf_append (s : String) (l1 l2 : List AgentMessage) :
    sameOf s (l1 ++ l2) = sameOf s l1 ++ sameOf s l2 := by
  simp [sameOf, List.filter_append]

lemma sameOf_take_succ {s : String} {init : List AgentMessage} {k : Nat}
    (hk : k < init.length) :
    sameOf s (init.take (k + 1)) =
      sameOf s (init.take k) ++ sameOf s [init[k]] := by
  rw [← List.take_concat_get' init k hk, sameOf_append]

lemma sameOf_singleton_none {s : String} {m : AgentMessage}
    (h : foreignTo (some s) m = true) : sameOf s [m] = [] := by
  simp only [foreignTo, Bool.not_eq_true'] at h
  simp [sameOf, h]

lemma sameOf_singleton_same {s : String} {m : AgentMessage}
    (h : foreignTo (some s) m = false) : sameOf s [m] = [m] := by
  have h2 := session_of_not_foreign h
  simp [sameOf, h2]

lemma mem_sameOf_getElem {s : String} {init : List AgentMessage} {k : Nat}
    (hk : k < init.length) (h : foreignTo (some s) init[k] = false) :
    init[k] ∈ sameOf s init := by
  refine List.mem_filter.mpr ⟨List.getElem_mem hk, ?_⟩
  simp [session_of_not_foreign h]

lemma C2_inv {σ : Type} (s : String) (reg : List (String × Agent σ))
    (init : List AgentMessage)
    (hval : ∀ m ∈ sameOf s init, (lookupAgent reg m.receiver).isSome = true) :
    ∀ (fuel : Nat) (st : BusState σ) (steps : Nat) (tr : List Event)
      (k : Nat) (B extras : List AgentMessage),
      k ≤ init.length →
      st.agents = reg →
      st.queue = init.drop k ++ B →
      delivs tr = sameOf s (init.take k) ++ extras →
      (k < init.length → extras = []) →
      ∃ k2 B2 extras2, k2 ≤ init.length ∧
        (runFuel (some s) none fuel st steps tr).state.queue = init.drop k2 ++ B2 ∧
        delivs (runFuel (some s) none fuel st steps tr).trace
          = sameOf s (init.take k2) ++ extras2 ∧
        (k2 < init.length → extras2 = []) := by
  intro fuel
  induction fuel with
  | zero =>
    intro st steps tr k B extras hk hag hq htr hex
    exact ⟨k, B, extras, hk, hq, htr, hex⟩
  | succ fuel ih =>
    intro st steps tr k B extras hk hag hq htr hex
    obtain ⟨ag, q, w⟩ := st
    simp only at hag hq
    subst hag
    subst hq
    rcases Nat.lt_or_ge k init.length with hklt | hkge
    · -- still inside the initial segment: head is init[k]
      have hdrop : init.drop k = init[k] :: init.drop (k + 1) :=
        List.drop_eq_getElem_cons hklt
      have hextras : extras = [] := hex hklt
      subst hextras
      rw [hdrop, List.cons_append, runFuel_cons_eq,
        if_neg (by simp [limitReached_none_eq])]
      by_cases hf : foreignTo (some s) init[k] = true
      · rw [stepBus_foreign _ _ _ _ hf]
        refine ih _ (steps + 1) _ (k + 1) (B ++ [init[k]]) [] hklt rfl ?_ ?_ ?_
        · simp [List.append_assoc]
        · rw [delivs_append]
          rw [show delivs [Event.recycled init[k]] = [] from rfl]
          rw [List.append_nil, List.append_nil] at *
          rw [htr, sameOf_take_succ hklt, sameOf_singleton_none hf]
          simp
        · intro _
          rfl
      · have hf' : foreignTo (some s) init[k] = false := by
          simpa using hf
        have hsome := hval init[k] (mem_sameOf_getElem hklt hf')
        obtain ⟨a, ha⟩ := Option.isSome_iff_exists.mp hsome
        rw [stepBus_deliver _ _ _ _ a hf' ha]
        refine ih _ (steps + 1) _ (k + 1)
          (B ++ (a w init[k]).sent) [] hklt rfl ?_ ?_ ?_
        · simp [List.append_assoc]
        · rw [delivs_append]
          have hdel : delivs (Event.dispatched init[k] ::
              (match (a w init[k]).err with
               | some e => [Event.handlerFailure init[k].type init[k].receiver
                   init[k].session_id e]
               | none => [])) = [init[k]] := by
            cases (a w init[k]).err <;> rfl
          rw [hdel, List.append_nil] at *
          rw [htr, sameOf_take_succ hklt, sameOf_singleton_same hf']
        · intro _
          rfl
    · -- the initial segment is exhausted: k = init.length
      have hkeq : k = init.length := le_antisymm hk hkge
      subst hkeq
      rw [List.drop_length, List.nil_append]
      cases B with
      | nil =>
        rw [runFuel_nil_eq]
        exact ⟨init.length, [], extras, le_refl _, by simp, htr, fun h => absurd h (lt_irrefl _)⟩
      | cons hd rest =>
        rw [runFuel_cons_eq, if_neg (by simp [limitReached_none_eq])]
        by_cases hf : foreignTo (some s) hd = true
        · rw [stepBus_foreign _ _ _ _ hf]
          refine ih _ (steps + 1) _ init.length (rest ++ [hd]) extras (le_refl _) rfl ?_ ?_ ?_
          · simp
          · rw [delivs_append]
            rw [show delivs [Event.recycled hd] = [] from rfl]
            rw [List.append_nil]
            exact htr
          · intro h
            exact absurd h (lt_irrefl _)
        · have hf' : foreignTo (some s) hd = false := by simpa using hf
          cases ha : lookupAgent ag hd.receiver with
          | none =>
            rw [stepBus_unknown _ _ _ _ hf' ha]
            refine ih _ (steps + 1) _ init.length rest extras (le_refl _) rfl (by simp) ?_ ?_
            · rw [delivs_append]
              rw [show delivs [Event.unknownReceiver hd] = [] from rfl]
              rw [List.append_nil]
              exact htr
            · intro h
              exact absurd h (lt_irrefl _)
          | some a =>
            rw [stepBus_deliver _ _ _ _ a hf' ha]
            refine ih _ (steps + 1) _ init.length (rest ++ (a w hd).sent)
              (extras ++ [hd]) (le_refl _) rfl (by simp) ?_ ?_
            · rw [delivs_append]
              have hdel : delivs (Event.dispatched hd ::
                  (match (a w hd).err with
                   | some e => [Event.handlerFailure hd.type hd.receiver hd.session_id e]
                   | none => [])) = [hd] := by
                cases (a w hd).err <;> rfl
              rw [hdel, htr, List.append_assoc]
            · intro h
              exact absurd h (lt_irrefl _)

lemma delivs_session {σ : Type} (s : String) (ms : Option Nat) :
    ∀ (fuel : Nat) (st : BusState σ) (steps : Nat) (tr : List Event),
      (∀ m ∈ delivs tr, m.session_id = s) →
      ∀ m ∈ delivs (runFuel (some s) ms fuel st steps tr).trace, m.session_id = s := by
  intro fuel
  induction fuel with
  | zero => intro st steps tr h; exact h
  | succ fuel ih =>
    intro st steps tr h
    obtain ⟨ag, q, w⟩ := st
    cases q with
    | nil => exact h
    | cons hd rest =>
      rw [runFuel_cons_eq]
      by_cases hl : limitReached ms steps
      · rw [if_pos hl]
        exact h
      · rw [if_neg hl]
        by_cases hf : foreignTo (some s) hd = true
        · rw [stepBus_foreign _ _ _ _ hf]
          refine ih _ (steps + 1) _ ?_
          rw [delivs_append]
          rw [show delivs [Event.recycled hd] = [] from rfl, List.append_nil]
          exact h
        · have hf' : foreignTo (some s) hd = false := by simpa using hf
          cases ha : lookupAgent ag hd.receiver with
          | none =>
            rw [stepBus_unknown _ _ _ _ hf' ha]
            refine ih _ (steps + 1) _ ?_
            rw [delivs_append]
            rw [show delivs [Event.unknownReceiver hd] = [] from rfl, List.append_nil]
            exact h
          | some a =>
            rw [stepBus_deliver _ _ _ _ a hf' ha]
            refine ih _ (steps + 1) _ ?_
            rw [delivs_append]
            have hdel : delivs (Event.dispatched hd ::
                (match (a w hd).err with
                 | some e => [Event.handlerFailure hd.type hd.receiver hd.session_id e]
                 | none => [])) = [hd] := by
              cases (a w hd).err <;> rfl
            rw [hdel]
            intro m hm
            rcases List.mem_append.mp hm with hm | hm
            · exact h m hm
            · rw [List.mem_singleton.mp hm]
              exact session_of_not_foreign hf'

lemma C2_exact {σ : Type} (s : String) (reg : List (String × Agent σ))
    (init : List AgentMessage)
    (hval : ∀ m ∈ sameOf s init, (lookupAgent reg m.receiver).isSome = true) :
    ∀ (j k : Nat) (B : List AgentMessage) (w : σ) (steps : Nat) (tr : List Event),
      k + j ≤ init.length →
      delivs tr = sameOf s (init.take k) →
      delivs (runFuel (some s) none j ⟨reg, init.drop k ++ B, w⟩ steps tr).trace
        = sameOf s (init.take (k + j)) := by
  intro j
  induction j with
  | zero => intro k B w steps tr _ htr; exact htr
  | succ j ih =>
    intro k B w steps tr hkj htr
    have hklt : k < init.length := by omega
    have hdrop : init.drop k = init[k] :: init.drop (k + 1) :=
      List.drop_eq_getElem_cons hklt
    rw [hdrop, List.cons_append, runFuel_cons_eq,
      if_neg (by simp [limitReached_none_eq])]
    have harith : k + (j + 1) = (k + 1) + j := by omega
    rw [harith]
    by_cases hf : foreignTo (some s) init[k] = true
    · rw [stepBus_foreign _ _ _ _ hf]
      have hq : ((init.drop (k + 1) ++ B) ++ [init[k]])
          = init.drop (k + 1) ++ (B ++ [init[k]]) := by
        simp [List.append_assoc]
      have := ih (k + 1) (B ++ [init[k]]) w (steps + 1)
        (tr ++ [Event.recycled init[k]]) (by omega) ?_
      · convert this using 3
        simp [List.append_assoc]
      · rw [delivs_append]
        rw [show delivs [Event.recycled init[k]] = [] from rfl, List.append_nil]
        rw [htr, sameOf_take_succ hklt, sameOf_singleton_none hf]
        simp
    · have hf' : foreignTo (some s) init[k] = false := by simpa using hf
      have hsome := hval init[k] (mem_sameOf_getElem hklt hf')
      obtain ⟨a, ha⟩ := Option.isSome_iff_exists.mp hsome
      rw [stepBus_deliver _ _ _ _ a hf' ha]
      have := ih (k + 1) (B ++ (a w init[k]).sent) ((a w init[k]).world) (steps + 1)
        (tr ++ (Event.dispatched init[k] ::
          (match (a w init[k]).err with
           | some e => [Event.handlerFailure init[k].type init[k].receiver
               init[k].session_id e]
           | none => []))) (by omega) ?_
      · convert this using 3
        simp [List.append_assoc]
      · rw [delivs_append]
        have hdel : delivs (Event.dispatched init[k] ::
            (match (a w init[k]).err with
             | some e => [Event.handlerFailure init[k].type init[k].receiver
                 init[k].session_id e]
             | none => [])) = [init[k]] := by
          cases (a w init[k]).err <;> rfl
        rw [hdel, htr, sameOf_take_succ hklt, sameOf_singleton_same hf']

lemma sameOf_take_ex (s : String) :
    ∀ (q : List AgentMessage) (i : Nat), i ≤ (sameOf s q).length →
      ∃ k, k ≤ q.length ∧ sameOf s (q.take k) = (sameOf s q).take i := by
  intro q
  induction q with
  | nil =>
    intro i hi
    simp [sameOf] at hi
    subst hi
    exact ⟨0, by simp, rfl⟩
  | cons a tl ih =>
    intro i hi
    by_cases ha : (a.session_id == s : Bool)
    · have hcons : sameOf s (a :: tl) = a :: sameOf s tl := by
        simp [sameOf, List.filter_cons, ha]
      cases i with
      | zero => exact ⟨0, by simp, rfl⟩
      | succ i' =>
        rw [hcons] at hi
        simp only [List.length_cons] at hi
        obtain ⟨k', hk', heq⟩ := ih i' (by omega)
        refine ⟨k' + 1, by simp; omega, ?_⟩
        rw [show (a :: tl).take (k' + 1) = a :: tl.take k' from rfl]
        rw [show sameOf s (a :: tl.take k') = a :: sameOf s (tl.take k') by
          simp [sameOf, List.filter_cons, ha]]
        rw [hcons, heq]
        rfl
    · have hcons : sameOf s (a :: tl) = sameOf s tl := by
        simp only [sameOf, List.filter_cons]
        rw [if_neg (by simpa using ha)]
      rw [hcons] at hi
      obtain ⟨k', hk', heq⟩ := ih i hi
      refine ⟨k' + 1, by simp; omega, ?_⟩
      rw [show (a :: tl).take (k' + 1) = a :: tl.take k' from rfl]
      rw [show sameOf s (a :: tl.take k') = sameOf s (tl.take k') by
        simp only [sameOf, List.filter_cons]
        rw [if_neg (by simpa using ha)]]
      rw [hcons, heq]

/-- Claim C2, confirmed (with the spec's validity premise for
completeness parts).  For every initial queue and session filter s:
(1) no envelope of a different session is ever delivered;
(2) a foreign-session envelope at the head is re-appended to the tail
and counted as exactly one step;
(3) assuming every same-session envelope in the initial queue has a
registered receiver (the spec's "valid envelopes"), at every point of
the run the messages delivered so far are exactly an in-order prefix of
the same-session sub-list of the initial queue, followed (only once that
sub-list is exhausted) by handler-generated deliveries; and every
same-session envelope is eventually delivered: for each i there is a
point of the run at which the deliveries are exactly the first i
same-session envelopes in enqueue order. -/
theorem C2_filtered_dispatch : ∀ (σ : Type) (reg : List (String × Agent σ))
    (q : List AgentMessage) (w : σ) (s : String),
    (∀ (fuel : Nat) (ms : Option Nat) (m : AgentMessage),
      m ∈ delivs (runFuel (some s) ms fuel ⟨reg, q, w⟩ 0 []).trace → m.session_id = s) ∧
    (∀ (fuel : Nat) (ms : Option Nat) (ag : List (String × Agent σ)) (m : AgentMessage)
      (rest : List AgentMessage) (w' : σ) (steps : Nat) (tr : List Event),
      foreignTo (some s) m = true → limitReached ms steps = false →
      runFuel (some s) ms (fuel + 1) ⟨ag, m :: rest, w'⟩ steps tr
        = runFuel (some s) ms fuel ⟨ag, rest ++ [m], w'⟩ (steps + 1)
            (tr ++ [.recycled m])) ∧
    ((∀ m ∈ sameOf s q, (lookupAgent reg m.receiver).isSome = true) →
      (∀ fuel, ∃ k extras, k ≤ q.length ∧
        delivs (runFuel (some s) none fuel ⟨reg, q, w⟩ 0 []).trace
          = sameOf s (q.take k) ++ extras ∧
        (k < q.length → extras = [])) ∧
      (∀ i, i ≤ (sameOf s q).length →
        ∃ fuel, delivs (runFuel (some s) none fuel ⟨reg, q, w⟩ 0 []).trace
          = (sameOf s q).take i)) := by
  intro σ reg q w s
  refine ⟨?_, ?_, ?_⟩
  · intro fuel ms m hm
    refine delivs_session s ms fuel ⟨reg, q, w⟩ 0 [] ?_ m hm
    intro m' hm'
    simp [delivs] at hm'
  · intro fuel ms ag m rest w' steps tr hf hlim
    rw [runFuel_cons_eq, if_neg (by simp [hlim]), stepBus_foreign _ _ _ _ hf]
  · intro hval
    constructor
    · intro fuel
      obtain ⟨k2, B2, extras2, hk2, _, htr2, hex2⟩ :=
        C2_inv s reg q hval fuel ⟨reg, q, w⟩ 0 [] 0 [] [] (by simp) rfl (by simp) rfl
          (fun _ => rfl)
      exact ⟨k2, extras2, hk2, htr2, hex2⟩
    · intro i hi
      obtain ⟨k, hk, heq⟩ := sameOf_take_ex s q i hi
      refine ⟨k, ?_⟩
      have h := C2_exact s reg q hval k 0 [] w 0 [] (by omega) rfl
      rw [List.drop_zero, List.append_nil] at h
      rw [show 0 + k = k from by omega] at h
      exact h.trans heq

/-- Witness for `C2_filtered_dispatch`: part (1) applied at a concrete
one-envelope queue, its delivery-membership hypothesis discharged by
computation. -/
theorem C2_witness :
    (AgentMessage.mk "X" "B" "START" (.tagged "p") "s1" none ∈
      delivs (runFuel (some "s1") none 2
        ⟨[("B", fun (w : Unit) (_ : AgentMessage) => HandlerOut.mk w [] none)],
          [AgentMessage.mk "X" "B" "START" (.tagged "p") "s1" none], ()⟩ 0 []).trace) ∧
    (AgentMessage.mk "X" "B" "START" (.tagged "p") "s1" none).session_id = "s1" :=
  ⟨by decide,
    (C2_filtered_dispatch Unit
      [("B", fun (w : Unit) (_ : AgentMessage) => HandlerOut.mk w [] none)]
      [AgentMessage.mk "X" "B" "START" (.tagged "p") "s1" none] () "s1").1 2 none
      (AgentMessage.mk "X" "B" "START" (.tagged "p") "s1" none) (by decide)⟩

end AgenticTerraformer
